import Mathlib

/-!
Verification of the cview widget toolkit fork: a shallow embedding of the
`InputField`, `CheckBox` and `Modal` widgets (src/inputfield.go, the checkbox
source file, src/modal.go) together with proofs about their event handlers.

Go strings are modelled as lists of bytes (`List Nat`), Go `int` as `Int`
(cursor and offset positions), and Go runes as `Char`.  The widget structs
keep only the fields the handlers read or write; user callbacks (`changed`,
`done`, `finished`) are modelled as presence flags plus an explicit list of
emitted calls, and the `accept` predicate and the autocomplete generator are
carried as optional functions.
-/

namespace Cview

/-! ### UTF-8 byte model

The Unicode helpers (`utf8.RuneCountInString`, `string(r)`, the
`iterateString`/`iterateStringReverse` traversal of util.go) are not part of
the sampled source; they are modelled from the spec's Geometry/Text contract:
a traversal of code-point units, each unit carrying its byte offset and byte
length, the units partitioning the string. -/

/-- Modelled from the spec: byte length of the UTF-8 unit that starts with
lead byte `b` (one byte for ASCII and for malformed lead bytes). -/
def runeLen (b : Nat) : Nat :=
  if b < 128 then 1
  else if b < 192 then 1
  else if b < 224 then 2
  else if b < 240 then 3
  else if b < 248 then 4
  else 1

/-- Modelled from the spec: UTF-8 encoding of the code point `n`
(Go `string(r)` for a valid rune). -/
def utf8EncodeNat (n : Nat) : List Nat :=
  if n < 128 then [n]
  else if n < 2048 then [192 + n / 64, 128 + n % 64]
  else if n < 65536 then [224 + n / 4096, 128 + n / 64 % 64, 128 + n % 64]
  else [240 + n / 262144, 128 + n / 4096 % 64, 128 + n / 64 % 64, 128 + n % 64]

/-- UTF-8 encoding of a Lean character. -/
def utf8Encode (c : Char) : List Nat :=
  utf8EncodeNat c.toNat

/-- Modelled from the spec: Go `utf8.RuneCountInString`, counting code-point
units of a byte string. -/
def utf8RuneCount : List Nat → Nat
  | [] => 0
  | b :: rest => 1 + utf8RuneCount (rest.drop (runeLen b - 1))
termination_by l => l.length
decreasing_by
  simp only [List.length_cons, List.length_drop]
  omega

/-- Modelled from the spec: the byte length of the first unit visited by the
forward traversal (`iterateString`) of a byte string; `0` on the empty string. -/
def firstUnitLen (l : List Nat) : Nat :=
  match l with
  | [] => 0
  | b :: rest => 1 + min (runeLen b - 1) rest.length

/-- Modelled from the spec: the byte length of the last unit visited by the
backward traversal (`iterateStringReverse`) of a byte string; `0` on the empty
string.  Computed by walking the forward unit decomposition to its end. -/
def lastUnitLen : List Nat → Nat
  | [] => 0
  | b :: rest =>
    if rest.length ≤ runeLen b - 1 then rest.length + 1
    else lastUnitLen (rest.drop (runeLen b - 1))
termination_by l => l.length
decreasing_by
  simp only [List.length_cons, List.length_drop]
  omega

/-- Modelled from the spec and the `regexRightWord` pattern declared in
src/inputfield.go (`(\w*|\W)$`, replaced by the empty string): drops the
trailing run of word characters, or, when the string ends in a non-word
character, that single trailing code point.  Word characters are exactly the
ASCII bytes matched by Go's `\w`. -/
def isWordByte (b : Nat) : Bool :=
  (48 ≤ b && b ≤ 57) || (65 ≤ b && b ≤ 90) || (97 ≤ b && b ≤ 122) || b == 95

/-- See `isWordByte`; Go `regexRightWord.ReplaceAllString(s, "")`. -/
def dropRightWord (l : List Nat) : List Nat :=
  match l.getLast? with
  | none => l
  | some b =>
    if isWordByte b then (l.reverse.dropWhile isWordByte).reverse
    else l.take (l.length - lastUnitLen l)

/-! ### CheckBox

The checkbox source file (`CheckBox` in the package).  The user callbacks are
modelled as presence flags; every handler returns the list of calls it makes,
in order.  A checkbox is built with no border and no padding, so its inner
rectangle coincides with its rectangle (Box is modelled from the spec). -/

inductive CBKey where
  | select
  | cancel
  | moveNext
  | movePrev
  | other
  deriving DecidableEq

inductive MouseAction where
  | leftClick
  | other
  deriving DecidableEq

structure CheckBoxState where
  checked : Bool
  changedSet : Bool
  doneSet : Bool
  finishedSet : Bool
  rectX : Int
  rectY : Int
  rectW : Int
  rectH : Int
  deriving DecidableEq

inductive CBEmit where
  | changed (checked : Bool)
  | done (key : CBKey)
  | finished (key : CBKey)
  deriving DecidableEq

/-- Modelled from the spec: Box.InRect — whether a point lies in the widget's rectangle. -/
def CheckBoxState.InRect (s : CheckBoxState) (x y : Int) : Bool :=
  decide (s.rectX ≤ x ∧ x < s.rectX + s.rectW ∧ s.rectY ≤ y ∧ y < s.rectY + s.rectH)

/-- From the source: CheckBox.InputHandler — a Select shortcut toggles `checked` and fires
`changed` with the new value; Cancel/MoveNextField/MovePreviousField fire `done` and
`finished` with the pressed key; other keys do nothing. -/
def CheckBox.InputHandler (s : CheckBoxState) (k : CBKey) : CheckBoxState × List CBEmit :=
  match k with
  | CBKey.select =>
    let s2 := { s with checked := !s.checked }
    (s2, if s.changedSet then [CBEmit.changed s2.checked] else [])
  | CBKey.other => (s, [])
  | k =>
    (s, (if s.doneSet then [CBEmit.done k] else []) ++
        (if s.finishedSet then [CBEmit.finished k] else []))

/-- From the source: CheckBox.MouseHandler — a left click inside the rectangle that lands on
the top row of the inner rectangle (`y == rectY`) toggles `checked` and fires `changed`;
any other click is not consumed and changes nothing.  The third component is `consumed`. -/
def CheckBox.MouseHandler (s : CheckBoxState) (action : MouseAction) (x y : Int) :
    CheckBoxState × List CBEmit × Bool :=
  if s.InRect x y = false then (s, [], false)
  else if action = MouseAction.leftClick ∧ y = s.rectY then
    let s2 := { s with checked := !s.checked }
    (s2, (if s.changedSet then [CBEmit.changed s2.checked] else []), true)
  else (s, [], false)

inductive CBEvent where
  | key (k : CBKey)
  | mouse (action : MouseAction) (x y : Int)
  deriving DecidableEq

/-- One checkbox event: a key press through InputHandler or a mouse event through
MouseHandler. -/
def CheckBox.step (s : CheckBoxState) (e : CBEvent) : CheckBoxState × List CBEmit :=
  match e with
  | CBEvent.key k => CheckBox.InputHandler s k
  | CBEvent.mouse a x y =>
    ((CheckBox.MouseHandler s a x y).1, (CheckBox.MouseHandler s a x y).2.1)

def CheckBox.run (s : CheckBoxState) (es : List CBEvent) : CheckBoxState :=
  es.foldl (fun t e => (CheckBox.step t e).1) s

/-- The events quantified over by the toggle-determinism claim as stated: Select-key presses
and left clicks anywhere inside the checkbox's rectangle. -/
def checkBoxClickAnywhereEvent (s : CheckBoxState) (e : CBEvent) : Prop :=
  match e with
  | CBEvent.key k => k = CBKey.select
  | CBEvent.mouse a x y => a = MouseAction.leftClick ∧ s.InRect x y = true

/-- The amended events: Select-key presses and left clicks inside the rectangle that also
land on the top row of the inner rectangle — the only clicks the handler toggles on. -/
def checkBoxToggleEvent (s : CheckBoxState) (e : CBEvent) : Prop :=
  match e with
  | CBEvent.key k => k = CBKey.select
  | CBEvent.mouse a x y => a = MouseAction.leftClick ∧ s.InRect x y = true ∧ y = s.rectY

/-- A two-row checkbox with no border: its rectangle is x 0, y 0, width 3, height 2. -/
def tallCheckBox : CheckBoxState :=
  { checked := false, changedSet := false, doneSet := false, finishedSet := false,
    rectX := 0, rectY := 0, rectW := 3, rectH := 2 }

/-! ### Modal -/

/-- From the source: the geometry computation of Modal.Draw (src/modal.go lines 196-232).
`wordWrap` and `tsw` (TaggedStringWidth) stand for the word-wrap and tagged-width helpers,
excluded collaborators with a fixed pure contract; message text and button labels are kept
abstract.  Returns the rectangle (x, y, width, height) that Draw passes to SetRect. -/
def Modal.drawRect {Msg Btn : Type} (wordWrap : Msg → Int → List Msg) (tsw : Btn → Int)
    (screenWidth screenHeight : Int) (text : Msg) (buttons : List Btn)
    (formItemCount : Int) : Int × Int × Int × Int :=
  let buttonsWidth := (buttons.foldl (fun w b => w + (tsw b + 4 + 2)) 0) - 2
  let width0 := Int.tdiv screenWidth 3
  let width1 := if width0 < buttonsWidth then buttonsWidth else width0
  let lines := wordWrap text width1
  let height := (lines.length : Int) + formItemCount * 2 + 6
  let width := width1 + 4
  (Int.tdiv (screenWidth - width) 2, Int.tdiv (screenHeight - height) 2, width, height)

/-- The rectangle as the geometry claim words it: width is the larger of one third of the
screen width and the total button-row width, plus a border allowance of 4; height is the
wrapped-line count plus 2 per form item plus 6; the rectangle is centered on the screen. -/
def Modal.claimedRect {Msg Btn : Type} (wordWrap : Msg → Int → List Msg) (tsw : Btn → Int)
    (screenWidth screenHeight : Int) (text : Msg) (buttons : List Btn)
    (formItemCount : Int) : Int × Int × Int × Int :=
  let buttonRowWidth := ((buttons.map (fun b => tsw b + 6)).sum) - 2
  let innerWidth := max (Int.tdiv screenWidth 3) buttonRowWidth
  let height := ((wordWrap text innerWidth).length : Int) + 2 * formItemCount + 6
  let width := innerWidth + 4
  (Int.tdiv (screenWidth - width) 2, Int.tdiv (screenHeight - height) 2, width, height)

/-! ### InputField -/

structure ListItem where
  mainText : List Nat
  secondaryText : List Nat
  deriving DecidableEq

/-- The autocomplete drop-down List, modelled from the spec: its items and the index of the
highlighted (current) item. -/
structure AutoList where
  items : List ListItem
  currentItem : Nat
  deriving DecidableEq

inductive Key where
  | enter
  | escape
  | down
  | up
  | tab
  | backtab
  | ctrlK
  | ctrlW
  | ctrlU
  | backspace
  | delete
  | rune (c : Char)
  deriving DecidableEq

inductive Emit where
  | changed (text : List Nat)
  | done (key : Key)
  | finished (key : Key)
  deriving DecidableEq

structure InputFieldState where
  text : List Nat
  cursorPos : Int
  offset : Int
  maskCharacter : Nat
  autocompleteList : Option AutoList
  autocompleteListSuggestion : List Nat
  accept : Option (List Nat → Char → Bool)
  changedSet : Bool
  doneSet : Bool
  finishedSet : Bool
  autocompleteFn : Option (List Nat → List ListItem)

/-- From the source: InputField.SetText (lines 163-176) — stores the text, puts the cursor at
its byte length, and fires `changed` with the new text whenever that callback is set. -/
def InputField.SetText (s : InputFieldState) (text : List Nat) : InputFieldState × List Emit :=
  ({ s with text := text, cursorPos := (text.length : Int) },
   if s.changedSet then [Emit.changed text] else [])

/-- From the source: InputField.GetText (lines 179-184). -/
def InputField.GetText (s : InputFieldState) : List Nat :=
  s.text

/-- From the source: InputField.SetMaskCharacter (lines 419-425); a value of 0 disables
masking. -/
def InputField.SetMaskCharacter (s : InputFieldState) (mask : Nat) : InputFieldState :=
  { s with maskCharacter := mask }

/-- From the source: the masking substitution of InputField.Draw (lines 649-652): when a mask
character is set, the rendered string is the mask repeated once per rune of the stored text;
otherwise the stored text itself is rendered. -/
def InputField.displayedText (s : InputFieldState) : List Nat :=
  if 0 < s.maskCharacter then
    (List.replicate (utf8RuneCount s.text) (utf8EncodeNat s.maskCharacter)).flatten
  else s.text

/-- From the source: InputField.autocompleteChanged (lines 506-514) — the suggestion stored
for the list item reported as newly selected, given the current field text. -/
def InputField.autocompleteChanged (text : List Nat) (item : ListItem) : List Nat :=
  if 0 < item.secondaryText.length ∧ text.length < item.secondaryText.length then
    item.secondaryText.drop text.length
  else if text.length + 1 < item.mainText.length then
    item.mainText.drop (text.length + 1)
  else []

/-- From the source: InputField.Autocomplete (lines 450-502).  The owned List widget is
modelled from the spec: the generator's entries fill the list, the first entry whose main
text equals the current text is pre-selected (the first item otherwise), and the ghost
suggestion is computed from that selected candidate through autocompleteChanged. -/
def InputField.Autocomplete (s : InputFieldState) : InputFieldState :=
  match s.autocompleteFn with
  | none => s
  | some g =>
    let entries := g s.text
    if entries.isEmpty then
      { s with autocompleteList := none, autocompleteListSuggestion := [] }
    else
      let currentEntry := (entries.findIdx? (fun e => e.mainText == s.text)).getD 0
      { s with autocompleteList := some ⟨entries, currentEntry⟩,
               autocompleteListSuggestion :=
                 InputField.autocompleteChanged s.text (entries.getD currentEntry ⟨[], []⟩) }

/-- Modelled from the spec: the List's SetCurrentItem — updates the highlighted index and,
when the index changes, fires the selection-changed callback, which the input field wires to
autocompleteChanged to recompute the suggestion. -/
def AutoList.SetCurrentItem (s : InputFieldState) (l : AutoList) (index : Nat) :
    InputFieldState :=
  let s2 := { s with autocompleteList := some { l with currentItem := index } }
  if index ≠ l.currentItem then
    { s2 with autocompleteListSuggestion :=
        InputField.autocompleteChanged s.text (l.items.getD index ⟨[], []⟩) }
  else s2

/-- From the source: the `add` closure of InputField.InputHandler (lines 792-800) — splices
the rune's UTF-8 bytes at the cursor unless the acceptance predicate rejects the resulting
text; returns whether the character was accepted. -/
def InputField.add (s : InputFieldState) (r : Char) : InputFieldState × Bool :=
  let newText := s.text.take s.cursorPos.toNat ++ utf8Encode r ++ s.text.drop s.cursorPos.toNat
  match s.accept with
  | some f =>
    if f newText r then
      ({ s with text := newText,
                cursorPos := s.cursorPos + ((utf8Encode r).length : Int) }, true)
    else (s, false)
  | none =>
    ({ s with text := newText,
              cursorPos := s.cursorPos + ((utf8Encode r).length : Int) }, true)

/-- From the source: the `finish` closure of InputField.InputHandler (lines 803-810). -/
def InputField.finish (s : InputFieldState) (k : Key) : List Emit :=
  (if s.doneSet then [Emit.done k] else []) ++
  (if s.finishedSet then [Emit.finished k] else [])

/-- From the source: the Down/Tab autocomplete branch (lines 904-917) — advance the
highlighted entry, wrapping from the last entry to the first. -/
def InputField.selectNext (s : InputFieldState) (l : AutoList) : InputFieldState :=
  let newEntry := if l.currentItem + 1 ≥ l.items.length then 0 else l.currentItem + 1
  AutoList.SetCurrentItem s l newEntry

/-- From the source: the Up/Backtab autocomplete branch (lines 918-930) — decrement the
highlighted entry, wrapping from the first entry to the last. -/
def InputField.selectPrev (s : InputFieldState) (l : AutoList) : InputFieldState :=
  let newEntry := if l.currentItem = 0 then l.items.length - 1 else l.currentItem - 1
  AutoList.SetCurrentItem s l newEntry

/-- From the source: the switch body of the InputField.InputHandler closure (lines 813-931),
for the keys the claims concern; character runes are taken without the Alt modifier. -/
def InputField.handlerBody (s : InputFieldState) (k : Key) : InputFieldState × List Emit :=
  match k with
  | Key.rune c => ((InputField.add s c).1, [])
  | Key.ctrlU => ({ s with text := [], cursorPos := 0 }, [])
  | Key.ctrlK => ({ s with text := s.text.take s.cursorPos.toNat }, [])
  | Key.ctrlW =>
    let newText :=
      dropRightWord (s.text.take s.cursorPos.toNat) ++ s.text.drop s.cursorPos.toNat
    ({ s with cursorPos := s.cursorPos - ((s.text.length : Int) - (newText.length : Int)),
              text := newText }, [])
  | Key.backspace =>
    let pre := s.text.take s.cursorPos.toNat
    let s2 :=
      if pre.isEmpty then s
      else
        let w := lastUnitLen pre
        let p := pre.length - w
        { s with text := s.text.take p ++ s.text.drop (p + w),
                 cursorPos := s.cursorPos - (w : Int) }
    if s2.offset ≥ s2.cursorPos then ({ s2 with offset := 0 }, []) else (s2, [])
  | Key.delete =>
    let suf := s.text.drop s.cursorPos.toNat
    if suf.isEmpty then (s, [])
    else ({ s with text := s.text.take s.cursorPos.toNat ++
                     s.text.drop (s.cursorPos.toNat + firstUnitLen suf) }, [])
  | Key.enter =>
    match s.autocompleteList with
    | some l =>
      let item := l.items.getD l.currentItem ⟨[], []⟩
      let selectionText :=
        if item.secondaryText ≠ [] then item.secondaryText else item.mainText
      let r := InputField.SetText s selectionText
      ({ r.1 with autocompleteList := none, autocompleteListSuggestion := [] }, r.2)
    | none => (s, InputField.finish s Key.enter)
  | Key.escape =>
    match s.autocompleteList with
    | some _ => ({ s with autocompleteList := none, autocompleteListSuggestion := [] }, [])
    | none => (s, InputField.finish s Key.escape)
  | Key.down =>
    match s.autocompleteList with
    | some l => (InputField.selectNext s l, [])
    | none => (s, InputField.finish s Key.down)
  | Key.tab =>
    match s.autocompleteList with
    | some l => (InputField.selectNext s l, [])
    | none => (s, InputField.finish s Key.tab)
  | Key.up =>
    match s.autocompleteList with
    | some l => (InputField.selectPrev s l, [])
    | none => (s, InputField.finish s Key.up)
  | Key.backtab =>
    match s.autocompleteList with
    | some l => (InputField.selectPrev s l, [])
    | none => (s, InputField.finish s Key.backtab)

/-- From the source: InputField.InputHandler (lines 749-935) — one key event: the switch
body followed by the deferred text-change bookkeeping, which, when the text changed, re-runs
Autocomplete and then fires `changed` with the new text. -/
def InputField.InputHandler (s : InputFieldState) (k : Key) : InputFieldState × List Emit :=
  let r := InputField.handlerBody s k
  if r.1.text ≠ s.text then
    let s2 := InputField.Autocomplete r.1
    (s2, r.2 ++ (if s2.changedSet then [Emit.changed s2.text] else []))
  else r

def InputField.runKeys (s : InputFieldState) (ks : List Key) : InputFieldState :=
  ks.foldl (fun t k => (InputField.InputHandler t k).1) s

/-- The insert and delete key events of the cursor-bounds claim. -/
def isEditKey : Key → Bool
  | Key.rune _ => true
  | Key.backspace => true
  | Key.delete => true
  | Key.ctrlK => true
  | Key.ctrlW => true
  | Key.ctrlU => true
  | _ => false

/-- The data-model invariant stated by the spec: the cursor is a byte position inside the
text. -/
def InputField.cursorInv (s : InputFieldState) : Prop :=
  0 ≤ s.cursorPos ∧ s.cursorPos ≤ (s.text.length : Int)

/-- A minimal input-field state for concrete instances: empty text, no callbacks. -/
def baseField : InputFieldState :=
  { text := [], cursorPos := 0, offset := 0, maskCharacter := 0,
    autocompleteList := none, autocompleteListSuggestion := [],
    accept := none, changedSet := false, doneSet := false, finishedSet := false,
    autocompleteFn := none }

/-- The generator of the spec's autocomplete test: for the input foo (bytes 102,111,111) it
returns the candidates foo and foobar (bytes 102,111,111,98,97,114). -/
def fooGen : List Nat → List ListItem :=
  fun _ => [⟨[102, 111, 111], []⟩, ⟨[102, 111, 111, 98, 97, 114], []⟩]

/-- The input field of the spec's autocomplete test: text foo, generator fooGen. -/
def fooState : InputFieldState :=
  { baseField with text := [102, 111, 111], cursorPos := 3, autocompleteFn := some fooGen }

/-- A generator returning the single candidate foobar for every input. -/
def foobarGen : List Nat → List ListItem :=
  fun _ => [⟨[102, 111, 111, 98, 97, 114], []⟩]

/-- An input field with text foo whose autocomplete list is open on the candidate foobar. -/
def enterState : InputFieldState :=
  { baseField with text := [102, 111, 111], cursorPos := 3,
                   autocompleteFn := some foobarGen,
                   autocompleteList := some ⟨[⟨[102, 111, 111, 98, 97, 114], []⟩], 0⟩ }

/-- A checkbox with a changed callback installed, on a single-row rectangle. -/
def chkW : CheckBoxState :=
  { checked := false, changedSet := true, doneSet := true, finishedSet := true,
    rectX := 2, rectY := 5, rectW := 4, rectH := 1 }

/-- An input field whose acceptance predicate rejects everything. -/
def rejectField : InputFieldState :=
  { baseField with text := [104, 105], cursorPos := 1,
                   accept := some (fun _ _ => false) }

/-- An input field with text hi and the cursor between the two bytes. -/
def plainField : InputFieldState :=
  { baseField with text := [104, 105], cursorPos := 1 }

/-- An input field with one-byte text, no generator, and an open list on candidate foo. -/
def enterQuietState : InputFieldState :=
  { baseField with text := [102], cursorPos := 1,
                   autocompleteList := some ⟨[⟨[102, 111, 111], []⟩], 0⟩ }

/-- An input field with an open three-item list highlighted on its last entry. -/
def navState : InputFieldState :=
  { baseField with text := [102],
                   autocompleteList := some ⟨[⟨[97], []⟩, ⟨[98], []⟩, ⟨[99], []⟩], 2⟩ }

/-- An input field with done and finished callbacks installed and no open list. -/
def noListState : InputFieldState :=
  { baseField with text := [104], cursorPos := 1, doneSet := true, finishedSet := true }

/-- An input field with callbacks installed and an open list. -/
def escState : InputFieldState :=
  { baseField with text := [104], cursorPos := 1, doneSet := true, finishedSet := true,
                   changedSet := true, autocompleteList := some ⟨[⟨[107], []⟩], 0⟩ }

/-- An input field whose generator yields no candidates. -/
def emptyGenState : InputFieldState :=
  { baseField with text := [104], cursorPos := 1,
                   autocompleteList := some ⟨[⟨[107], []⟩], 0⟩,
                   autocompleteListSuggestion := [107],
                   autocompleteFn := some (fun _ => []) }

/-- An input field holding the two-byte text hi. -/
def maskState : InputFieldState :=
  { baseField with text := [104, 105], cursorPos := 2 }

/-- From the source (lines 880-884): the text an Enter press accepts from an open
autocomplete list — the highlighted candidate's secondary text when non-empty, its main
text otherwise. -/
def autoSelection (l : AutoList) : List Nat :=
  let item := l.items.getD l.currentItem ⟨[], []⟩
  if item.secondaryText ≠ [] then item.secondaryText else item.mainText

/-! ### Theorems -/

theorem firstUnitLen_pos (l : List Nat) (h : l ≠ []) : 1 ≤ firstUnitLen l := by
  cases l with
  | nil => exact absurd rfl h
  | cons b rest => simp [firstUnitLen]

theorem firstUnitLen_le (l : List Nat) : firstUnitLen l ≤ l.length := by
  cases l with
  | nil => simp [firstUnitLen]
  | cons b rest => simp [firstUnitLen]; omega

theorem lastUnitLen_pos (l : List Nat) (h : l ≠ []) : 1 ≤ lastUnitLen l := by
  induction l using lastUnitLen.induct with
  | case1 => exact absurd rfl h
  | case2 b rest hle => rw [lastUnitLen]; simp only [if_pos hle]; omega
  | case3 b rest hgt ih =>
    rw [lastUnitLen]
    simp only [if_neg hgt]
    refine ih ?_
    intro hnil
    have hlen := congrArg List.length hnil
    simp only [List.length_drop, List.length_nil] at hlen
    omega

theorem lastUnitLen_le (l : List Nat) : lastUnitLen l ≤ l.length := by
  induction l using lastUnitLen.induct with
  | case1 => simp [lastUnitLen]
  | case2 b rest hle => rw [lastUnitLen]; simp only [if_pos hle, List.length_cons]; omega
  | case3 b rest hgt ih =>
    rw [lastUnitLen]
    simp only [if_neg hgt, List.length_cons]
    have hd : (rest.drop (runeLen b - 1)).length ≤ rest.length := by
      simp [List.length_drop]
    omega

theorem length_dropWhile_le (p : Nat → Bool) (l : List Nat) :
    (l.dropWhile p).length ≤ l.length := by
  induction l with
  | nil => simp
  | cons a t ih =>
    by_cases hp : p a
    · rw [List.dropWhile_cons_of_pos hp]
      simp only [List.length_cons]
      omega
    · rw [List.dropWhile_cons_of_neg (by simpa using hp)]

theorem dropRightWord_length_le (l : List Nat) :
    (dropRightWord l).length ≤ l.length := by
  unfold dropRightWord
  cases hg : l.getLast? with
  | none => simp
  | some b =>
    by_cases hw : isWordByte b
    · simp only [hw, if_pos rfl]
      calc ((l.reverse.dropWhile isWordByte).reverse).length
          = (l.reverse.dropWhile isWordByte).length := by simp
        _ ≤ l.reverse.length := length_dropWhile_le _ _
        _ = l.length := by simp
    · simp only [hw]
      simp [List.length_take]


/-! #### Generic facts about the embedded operations -/

theorem Autocomplete_preserves (s : InputFieldState) :
    (InputField.Autocomplete s).text = s.text ∧
    (InputField.Autocomplete s).cursorPos = s.cursorPos ∧
    (InputField.Autocomplete s).offset = s.offset ∧
    (InputField.Autocomplete s).changedSet = s.changedSet := by
  unfold InputField.Autocomplete
  cases s.autocompleteFn with
  | none => exact ⟨rfl, rfl, rfl, rfl⟩
  | some g =>
    by_cases h : (g s.text).isEmpty
    · simp [h]
    · simp [h]

theorem InputHandler_fst_fields (s : InputFieldState) (k : Key) :
    (InputField.InputHandler s k).1.text = (InputField.handlerBody s k).1.text ∧
    (InputField.InputHandler s k).1.cursorPos = (InputField.handlerBody s k).1.cursorPos := by
  simp only [InputField.InputHandler]
  split
  · exact ⟨(Autocomplete_preserves _).1, (Autocomplete_preserves _).2.1⟩
  · exact ⟨rfl, rfl⟩

/-! #### CheckBox lemmas -/

theorem CheckBox_step_frame (s : CheckBoxState) (e : CBEvent) :
    (CheckBox.step s e).1.rectX = s.rectX ∧ (CheckBox.step s e).1.rectY = s.rectY ∧
    (CheckBox.step s e).1.rectW = s.rectW ∧ (CheckBox.step s e).1.rectH = s.rectH ∧
    (CheckBox.step s e).1.changedSet = s.changedSet := by
  cases e with
  | key k => cases k <;> simp [CheckBox.step, CheckBox.InputHandler]
  | mouse a x y =>
    simp only [CheckBox.step, CheckBox.MouseHandler]
    split
    · exact ⟨rfl, rfl, rfl, rfl, rfl⟩
    · split
      · simp
      · exact ⟨rfl, rfl, rfl, rfl, rfl⟩

theorem CheckBox_run_frame (s : CheckBoxState) (es : List CBEvent) :
    (CheckBox.run s es).rectX = s.rectX ∧ (CheckBox.run s es).rectY = s.rectY ∧
    (CheckBox.run s es).rectW = s.rectW ∧ (CheckBox.run s es).rectH = s.rectH ∧
    (CheckBox.run s es).changedSet = s.changedSet := by
  induction es generalizing s with
  | nil => exact ⟨rfl, rfl, rfl, rfl, rfl⟩
  | cons e es ih =>
    have h1 := CheckBox_step_frame s e
    have h2 := ih (CheckBox.step s e).1
    simp only [CheckBox.run, List.foldl_cons] at h2 ⊢
    exact ⟨h2.1.trans h1.1, h2.2.1.trans h1.2.1, h2.2.2.1.trans h1.2.2.1,
      h2.2.2.2.1.trans h1.2.2.2.1, h2.2.2.2.2.trans h1.2.2.2.2⟩

theorem CheckBox_run_append_single (s : CheckBoxState) (pre : List CBEvent) (e : CBEvent) :
    CheckBox.run s (pre ++ [e]) = (CheckBox.step (CheckBox.run s pre) e).1 := by
  simp [CheckBox.run, List.foldl_append]

theorem CheckBox_step_toggles (s : CheckBoxState) (e : CBEvent)
    (he : checkBoxToggleEvent s e) :
    (CheckBox.step s e).1.checked = !s.checked ∧
    (CheckBox.step s e).2 = (if s.changedSet then [CBEmit.changed (!s.checked)] else []) := by
  cases e with
  | key k =>
    have hk : k = CBKey.select := he
    subst hk
    simp [CheckBox.step, CheckBox.InputHandler]
  | mouse a x y =>
    obtain ⟨ha, hin, hy⟩ := he
    subst ha
    simp only [CheckBox.step, CheckBox.MouseHandler]
    rw [hin, if_neg (by simp), if_pos ⟨by trivial, hy⟩]
    simp

theorem checkBoxToggleEvent_of_run (s : CheckBoxState) (pre : List CBEvent) (e : CBEvent)
    (he : checkBoxToggleEvent s e) : checkBoxToggleEvent (CheckBox.run s pre) e := by
  have hf := CheckBox_run_frame s pre
  cases e with
  | key k => exact he
  | mouse a x y =>
    obtain ⟨ha, hin, hy⟩ := he
    refine ⟨ha, ?_, by rw [hf.2.1]; exact hy⟩
    unfold CheckBoxState.InRect at hin ⊢
    rw [hf.1, hf.2.1, hf.2.2.1, hf.2.2.2.1]
    exact hin


/-! #### Claim theorems: CheckBox, Modal, autocomplete suggestion, SetText -/

/-- Claim C2 counterexample: the left click at (1, 1) lies inside the 3-by-2 rectangle of
`tallCheckBox` — an event of the claim as stated — yet the mouse handler leaves `checked`
unchanged, so `checked` does not strictly alternate over such events. -/
theorem checkBox_click_anywhere_cex :
    checkBoxClickAnywhereEvent tallCheckBox (CBEvent.mouse MouseAction.leftClick 1 1) ∧
    (CheckBox.step tallCheckBox (CBEvent.mouse MouseAction.leftClick 1 1)).1.checked
      = tallCheckBox.checked := by
  constructor
  · exact ⟨rfl, by decide⟩
  · decide

/-- Claim C2 (amended): over sequences of Select-key presses and left clicks on the top row of the
checkbox's inner rectangle, `checked` strictly alternates — each event flips it exactly
once — and the `changed` callback, when set, fires exactly once per event with the new value
of `checked`. -/
theorem checkBox_toggle_determinism (s : CheckBoxState) (pre : List CBEvent) (e : CBEvent)
    (he : checkBoxToggleEvent s e) :
    (CheckBox.run s (pre ++ [e])).checked = !(CheckBox.run s pre).checked ∧
    (CheckBox.step (CheckBox.run s pre) e).2 =
      (if s.changedSet then [CBEmit.changed (!(CheckBox.run s pre).checked)] else []) := by
  have hstep := CheckBox_step_toggles (CheckBox.run s pre) e (checkBoxToggleEvent_of_run s pre e he)
  refine ⟨?_, ?_⟩
  · rw [CheckBox_run_append_single]
    exact hstep.1
  · rw [hstep.2, (CheckBox_run_frame s pre).2.2.2.2]

theorem checkBox_toggle_determinism_witness :
    (CheckBox.run chkW ([] ++ [CBEvent.key CBKey.select])).checked
        = !(CheckBox.run chkW []).checked ∧
    (CheckBox.step (CheckBox.run chkW []) (CBEvent.key CBKey.select)).2
        = (if chkW.changedSet then [CBEmit.changed (!(CheckBox.run chkW []).checked)] else []) :=
  checkBox_toggle_determinism chkW [] (CBEvent.key CBKey.select) rfl

/-- Claim C3: the rectangle Modal.Draw passes to SetRect is a pure function of the screen size,
the message text, the button labels and the form-item count, and it equals the claimed
formula: width is the larger of one third of the screen width and the button-row width,
plus 4; height is the wrapped-line count plus 2 per form item plus 6; the rectangle is
centered on the screen. -/
theorem modal_geometry {Msg Btn : Type} (wordWrap : Msg → Int → List Msg) (tsw : Btn → Int)
    (screenWidth screenHeight : Int) (text : Msg) (buttons : List Btn)
    (formItemCount : Int) :
    Modal.drawRect wordWrap tsw screenWidth screenHeight text buttons formItemCount =
      Modal.claimedRect wordWrap tsw screenWidth screenHeight text buttons formItemCount := by
  have hsum : ∀ (l : List Btn) (a : Int),
      l.foldl (fun w b => w + (tsw b + 4 + 2)) a = a + ((l.map (fun b => tsw b + 6)).sum) := by
    intro l
    induction l with
    | nil => intro a; simp
    | cons b t ih =>
      intro a
      simp only [List.foldl_cons, List.map_cons, List.sum_cons, ih]
      ring
  simp only [Modal.drawRect, Modal.claimedRect, hsum buttons 0, zero_add]
  rcases lt_or_le (Int.tdiv screenWidth 3) (((buttons.map (fun b => tsw b + 6)).sum) - 2)
    with h | h
  · rw [if_pos h, max_eq_right h.le, mul_comm formItemCount 2]
  · rw [if_neg (not_lt.mpr h), max_eq_left h, mul_comm formItemCount 2]

/-- Claim C1: evaluation of the suggestion computation on the spec's autocomplete test.  With
field text foo (bytes 102,111,111), the source's autocompleteChanged stores "ar" (97,114)
— not the unmatched suffix "bar" (98,97,114) — for the candidate foobar, because it slices
the main text at len(text)+1; for the pre-selected exact-match candidate foo it stores the
empty suggestion, so after Autocomplete() on `fooState` the stored suggestion is empty. -/
theorem autocomplete_suggestion_eval :
    InputField.autocompleteChanged [102, 111, 111] ⟨[102, 111, 111, 98, 97, 114], []⟩
        = [97, 114] ∧
    InputField.autocompleteChanged [102, 111, 111] ⟨[102, 111, 111, 98, 97, 114], []⟩
        ≠ [98, 97, 114] ∧
    InputField.autocompleteChanged [102, 111, 111] ⟨[102, 111, 111], []⟩ = [] ∧
    (InputField.Autocomplete fooState).autocompleteListSuggestion = [] ∧
    (InputField.Autocomplete fooState).autocompleteList
        = some ⟨[⟨[102, 111, 111], []⟩, ⟨[102, 111, 111, 98, 97, 114], []⟩], 0⟩ := by
  refine ⟨by decide, by decide, by decide, ?_, ?_⟩
  · decide
  · decide

/-- Claim C10: SetText stores the given text, puts the cursor at its byte length, and fires the
`changed` callback with the new text exactly when the callback is set — including when the
new text equals the previous text. -/
theorem inputField_SetText_spec (s : InputFieldState) (t : List Nat) :
    (InputField.SetText s t).1.text = t ∧
    (InputField.SetText s t).1.cursorPos = (t.length : Int) ∧
    (InputField.SetText s t).2 = (if s.changedSet then [Emit.changed t] else []) :=
  ⟨rfl, rfl, rfl⟩


/-! #### Claim theorems: InputField autocomplete interaction -/

/-- Claim C8: Escape with an open autocomplete list clears the list and the suggestion, leaves
text and cursor unchanged, and fires no done, finished or changed callback; an invocation
of Autocomplete whose generator returns no candidates likewise sets the list to nil and the
suggestion to the empty string while leaving text and cursor unchanged. -/
theorem inputField_escape_and_empty :
    (∀ (s : InputFieldState) (l : AutoList), s.autocompleteList = some l →
       InputField.InputHandler s Key.escape =
         ({ s with autocompleteList := none, autocompleteListSuggestion := [] }, [])) ∧
    (∀ (s : InputFieldState) (g : List Nat → List ListItem),
       s.autocompleteFn = some g → g s.text = [] →
       InputField.Autocomplete s =
         { s with autocompleteList := none, autocompleteListSuggestion := [] }) := by
  constructor
  · intro s l hl
    simp only [InputField.InputHandler, InputField.handlerBody, hl]
    rw [if_neg (by simp)]
  · intro s g hg hge
    simp only [InputField.Autocomplete, hg, hge]
    simp

theorem inputField_escape_and_empty_witness :
    InputField.InputHandler escState Key.escape =
      ({ escState with autocompleteList := none, autocompleteListSuggestion := [] }, []) ∧
    InputField.Autocomplete emptyGenState =
      { emptyGenState with autocompleteList := none, autocompleteListSuggestion := [] } :=
  ⟨inputField_escape_and_empty.1 escState ⟨[⟨[107], []⟩], 0⟩ rfl,
   inputField_escape_and_empty.2 emptyGenState (fun _ => []) rfl rfl⟩

theorem nav_handler_some (s : InputFieldState) (k : Key) (l : AutoList) (idx : Nat)
    (hb : InputField.handlerBody s k = (AutoList.SetCurrentItem s l idx, [])) :
    (InputField.InputHandler s k).2 = [] ∧
    (InputField.InputHandler s k).1.autocompleteList = some ⟨l.items, idx⟩ := by
  have htext : (InputField.handlerBody s k).1.text = s.text := by
    rw [hb]
    simp only [AutoList.SetCurrentItem]
    split <;> simp
  have hh : InputField.InputHandler s k = InputField.handlerBody s k := by
    simp only [InputField.InputHandler]
    rw [if_neg (by simp [htext])]
  rw [hh, hb]
  refine ⟨rfl, ?_⟩
  simp only [AutoList.SetCurrentItem]
  split <;> simp

theorem nav_handler_none (s : InputFieldState) (k : Key)
    (hb : InputField.handlerBody s k = (s, InputField.finish s k)) :
    InputField.InputHandler s k = (s, InputField.finish s k) := by
  have hh : InputField.InputHandler s k = InputField.handlerBody s k := by
    simp only [InputField.InputHandler]
    rw [if_neg (by simp [hb])]
  rw [hh, hb]

/-- Claim C7: while the autocomplete list is open, Down and Tab advance the highlighted index by
one, wrapping from the last entry to the first, Up and Backtab decrement it, wrapping from
the first entry to the last, and no callback fires; when no list is open, each of these keys
fires the done and finished callbacks (when set) with the pressed key. -/
theorem inputField_autocomplete_navigation (s : InputFieldState) (k : Key)
    (hk : k = Key.down ∨ k = Key.tab ∨ k = Key.up ∨ k = Key.backtab) :
    (∀ l : AutoList, s.autocompleteList = some l →
      (InputField.InputHandler s k).2 = [] ∧
      ∃ l2 : AutoList, (InputField.InputHandler s k).1.autocompleteList = some l2 ∧
        l2.items = l.items ∧
        l2.currentItem =
          (if k = Key.down ∨ k = Key.tab then
            (if l.currentItem + 1 ≥ l.items.length then 0 else l.currentItem + 1)
          else
            (if l.currentItem = 0 then l.items.length - 1 else l.currentItem - 1))) ∧
    (s.autocompleteList = none →
      InputField.InputHandler s k =
        (s, (if s.doneSet then [Emit.done k] else []) ++
            (if s.finishedSet then [Emit.finished k] else []))) := by
  rcases hk with rfl | rfl | rfl | rfl
  · refine ⟨?_, ?_⟩
    · intro l hl
      have hb : InputField.handlerBody s Key.down =
          (AutoList.SetCurrentItem s l
            (if l.currentItem + 1 ≥ l.items.length then 0 else l.currentItem + 1), []) := by
        simp only [InputField.handlerBody, hl, InputField.selectNext]
      have h := nav_handler_some s Key.down l _ hb
      refine ⟨h.1,
        ⟨l.items, if l.currentItem + 1 ≥ l.items.length then 0 else l.currentItem + 1⟩,
        h.2, rfl, ?_⟩
      rw [if_pos (Or.inl rfl)]
    · intro hl
      exact nav_handler_none s Key.down (by simp only [InputField.handlerBody, hl])
  · refine ⟨?_, ?_⟩
    · intro l hl
      have hb : InputField.handlerBody s Key.tab =
          (AutoList.SetCurrentItem s l
            (if l.currentItem + 1 ≥ l.items.length then 0 else l.currentItem + 1), []) := by
        simp only [InputField.handlerBody, hl, InputField.selectNext]
      have h := nav_handler_some s Key.tab l _ hb
      refine ⟨h.1,
        ⟨l.items, if l.currentItem + 1 ≥ l.items.length then 0 else l.currentItem + 1⟩,
        h.2, rfl, ?_⟩
      rw [if_pos (Or.inr rfl)]
    · intro hl
      exact nav_handler_none s Key.tab (by simp only [InputField.handlerBody, hl])
  · refine ⟨?_, ?_⟩
    · intro l hl
      have hb : InputField.handlerBody s Key.up =
          (AutoList.SetCurrentItem s l
            (if l.currentItem = 0 then l.items.length - 1 else l.currentItem - 1), []) := by
        simp only [InputField.handlerBody, hl, InputField.selectPrev]
      have h := nav_handler_some s Key.up l _ hb
      refine ⟨h.1,
        ⟨l.items, if l.currentItem = 0 then l.items.length - 1 else l.currentItem - 1⟩,
        h.2, rfl, ?_⟩
      rw [if_neg (show ¬(Key.up = Key.down ∨ Key.up = Key.tab) from by decide)]
    · intro hl
      exact nav_handler_none s Key.up (by simp only [InputField.handlerBody, hl])
  · refine ⟨?_, ?_⟩
    · intro l hl
      have hb : InputField.handlerBody s Key.backtab =
          (AutoList.SetCurrentItem s l
            (if l.currentItem = 0 then l.items.length - 1 else l.currentItem - 1), []) := by
        simp only [InputField.handlerBody, hl, InputField.selectPrev]
      have h := nav_handler_some s Key.backtab l _ hb
      refine ⟨h.1,
        ⟨l.items, if l.currentItem = 0 then l.items.length - 1 else l.currentItem - 1⟩,
        h.2, rfl, ?_⟩
      rw [if_neg (show ¬(Key.backtab = Key.down ∨ Key.backtab = Key.tab) from by decide)]
    · intro hl
      exact nav_handler_none s Key.backtab (by simp only [InputField.handlerBody, hl])

theorem inputField_autocomplete_navigation_witness :
    ((InputField.InputHandler navState Key.down).2 = [] ∧
     ∃ l2 : AutoList,
       (InputField.InputHandler navState Key.down).1.autocompleteList = some l2 ∧
       l2.items = [⟨[97], []⟩, ⟨[98], []⟩, ⟨[99], []⟩] ∧ l2.currentItem = 0) ∧
    InputField.InputHandler noListState Key.tab =
      (noListState, [Emit.done Key.tab, Emit.finished Key.tab]) := by
  constructor
  · have h := (inputField_autocomplete_navigation navState Key.down (Or.inl rfl)).1
      ⟨[⟨[97], []⟩, ⟨[98], []⟩, ⟨[99], []⟩], 2⟩ rfl
    refine ⟨h.1, ?_⟩
    obtain ⟨l2, hl2, hitems, hcur⟩ := h.2
    refine ⟨l2, hl2, hitems, ?_⟩
    rw [hcur]
    decide
  · have h := (inputField_autocomplete_navigation noListState Key.tab
      (Or.inr (Or.inl rfl))).2 rfl
    rw [h]
    rfl


/-- Claim C6 counterexample: on `enterState` (field text foo, open list highlighting the candidate
foobar, generator returning a candidate for every input), Enter replaces the text wholesale
and clears the list — but the deferred text-change bookkeeping immediately re-invokes the
generator on the new text and rebuilds the list, so after the event the autocomplete list is
not nil, contrary to the claim. -/
theorem inputField_enter_cex :
    (InputField.InputHandler enterState Key.enter).1.text = [102, 111, 111, 98, 97, 114] ∧
    (InputField.InputHandler enterState Key.enter).1.autocompleteList ≠ none := by
  constructor
  · decide
  · decide

/-- Claim C6 (amended): Enter with an open autocomplete list replaces the field text wholesale by
the highlighted candidate's secondary text (falling back to its main text), moves the cursor
to its end, clears the list and the suggestion, and invokes no done or finished callback;
when the accepted text differs from the previous text, the deferred text-change bookkeeping
then re-runs Autocomplete on the new text, which re-creates the list exactly when the
generator returns candidates for it. -/
theorem inputField_enter_selection (s : InputFieldState) (l : AutoList)
    (hl : s.autocompleteList = some l) :
    (InputField.InputHandler s Key.enter).1.text = autoSelection l ∧
    (InputField.InputHandler s Key.enter).1.cursorPos = ((autoSelection l).length : Int) ∧
    (∀ k, Emit.done k ∉ (InputField.InputHandler s Key.enter).2 ∧
          Emit.finished k ∉ (InputField.InputHandler s Key.enter).2) ∧
    (autoSelection l = s.text →
      (InputField.InputHandler s Key.enter).1.autocompleteList = none ∧
      (InputField.InputHandler s Key.enter).1.autocompleteListSuggestion = []) ∧
    (autoSelection l ≠ s.text →
      (InputField.InputHandler s Key.enter).1 =
        InputField.Autocomplete
          { s with text := autoSelection l, cursorPos := ((autoSelection l).length : Int),
                   autocompleteList := none, autocompleteListSuggestion := [] }) := by
  have hb : InputField.handlerBody s Key.enter =
      ({ s with text := autoSelection l, cursorPos := ((autoSelection l).length : Int),
                autocompleteList := none, autocompleteListSuggestion := [] },
       if s.changedSet then [Emit.changed (autoSelection l)] else []) := by
    simp only [InputField.handlerBody, hl, InputField.SetText, autoSelection]
  by_cases hsel : autoSelection l = s.text
  · have hh : InputField.InputHandler s Key.enter = InputField.handlerBody s Key.enter := by
      simp only [InputField.InputHandler]
      rw [if_neg (by simp [hb, hsel])]
    rw [hh, hb]
    refine ⟨rfl, rfl, ?_, fun _ => ⟨rfl, rfl⟩, fun hne => absurd hsel hne⟩
    intro k
    constructor <;> · split <;> simp
  · have hcond : ¬¬((InputField.handlerBody s Key.enter).1.text ≠ s.text) := by
      rw [hb]
      exact not_not_intro hsel
    have hh : InputField.InputHandler s Key.enter =
        (InputField.Autocomplete (InputField.handlerBody s Key.enter).1,
         (InputField.handlerBody s Key.enter).2 ++
           (if (InputField.Autocomplete (InputField.handlerBody s Key.enter).1).changedSet
            then [Emit.changed
                    (InputField.Autocomplete (InputField.handlerBody s Key.enter).1).text]
            else [])) := by
      simp only [InputField.InputHandler]
      rw [if_pos (not_not.mp hcond)]
    rw [hh, hb]
    refine ⟨?_, ?_, ?_, fun heq => absurd heq hsel, fun _ => rfl⟩
    · rw [(Autocomplete_preserves _).1]
    · rw [(Autocomplete_preserves _).2.1]
    · intro k
      constructor <;>
      · intro hmem
        rcases List.mem_append.mp hmem with hmem | hmem <;>
        · revert hmem
          split <;> simp
  

theorem inputField_enter_selection_witness :
    (InputField.InputHandler enterQuietState Key.enter).1.text = [102, 111, 111] ∧
    (InputField.InputHandler enterQuietState Key.enter).1.autocompleteList = none := by
  have h := inputField_enter_selection enterQuietState ⟨[⟨[102, 111, 111], []⟩], 0⟩ rfl
  refine ⟨by rw [h.1]; decide, ?_⟩
  have h5 := h.2.2.2.2 (by decide)
  rw [h5]
  decide

/-- Claim C9: SetMaskCharacter changes only the maskCharacter field; GetText returns the stored
text regardless of the mask; when a mask is set, the rendered text substitutes the mask
character once per rune of the stored text, and with the mask disabled the stored text
itself is rendered. -/
theorem inputField_mask_frame (s : InputFieldState) (m : Nat) :
    InputField.SetMaskCharacter s m = { s with maskCharacter := m } ∧
    InputField.GetText (InputField.SetMaskCharacter s m) = InputField.GetText s ∧
    (0 < m →
      InputField.displayedText (InputField.SetMaskCharacter s m) =
        (List.replicate (utf8RuneCount s.text) (utf8EncodeNat m)).flatten) ∧
    InputField.displayedText (InputField.SetMaskCharacter s 0) = InputField.GetText s := by
  refine ⟨rfl, rfl, ?_, ?_⟩
  · intro hm
    simp [InputField.displayedText, InputField.SetMaskCharacter, hm]
  · simp [InputField.displayedText, InputField.SetMaskCharacter, InputField.GetText]

theorem inputField_mask_frame_witness :
    InputField.SetMaskCharacter maskState 42 = { maskState with maskCharacter := 42 } ∧
    InputField.displayedText (InputField.SetMaskCharacter maskState 42)
      = (List.replicate (utf8RuneCount maskState.text) (utf8EncodeNat 42)).flatten :=
  ⟨(inputField_mask_frame maskState 42).1,
   (inputField_mask_frame maskState 42).2.2.1 (by decide)⟩


/-! #### Cursor-bounds invariant and character acceptance -/

theorem cursorInv_add (s : InputFieldState) (c : Char) (h : InputField.cursorInv s) :
    InputField.cursorInv (InputField.add s c).1 := by
  obtain ⟨h0, h1⟩ := h
  cases hacc : s.accept with
  | none =>
    simp only [InputField.add, hacc]
    refine ⟨?_, ?_⟩ <;>
      (try simp only [List.length_append, List.length_take, List.length_drop]) <;> omega
  | some f =>
    simp only [InputField.add, hacc]
    split
    · refine ⟨?_, ?_⟩ <;>
        (try simp only [List.length_append, List.length_take, List.length_drop]) <;> omega
    · exact ⟨h0, h1⟩

theorem cursorInv_handlerBody (s : InputFieldState) (k : Key) (hk : isEditKey k = true)
    (h : InputField.cursorInv s) :
    InputField.cursorInv (InputField.handlerBody s k).1 := by
  obtain ⟨h0, h1⟩ := h
  cases k with
  | rune c => exact cursorInv_add s c ⟨h0, h1⟩
  | ctrlU =>
    simp only [InputField.handlerBody]
    exact ⟨le_refl 0, by simp⟩
  | ctrlK =>
    simp only [InputField.handlerBody]
    refine ⟨h0, ?_⟩
    simp only [List.length_take]
    omega
  | ctrlW =>
    have hd := dropRightWord_length_le (s.text.take s.cursorPos.toNat)
    rw [List.length_take] at hd
    simp only [InputField.handlerBody]
    refine ⟨?_, ?_⟩ <;>
      (try simp only [List.length_append, List.length_take, List.length_drop]) <;> omega
  | backspace =>
    have hw2 := lastUnitLen_le (s.text.take s.cursorPos.toNat)
    rw [List.length_take] at hw2
    simp only [InputField.handlerBody]
    split
    · split
      · exact ⟨h0, h1⟩
      · exact ⟨h0, h1⟩
    · next hne =>
      have hne2 : s.text.take s.cursorPos.toNat ≠ [] := fun heq => hne (by rw [heq]; rfl)
      have hw1 : 1 ≤ lastUnitLen (s.text.take s.cursorPos.toNat) := lastUnitLen_pos _ hne2
      split
      · refine ⟨?_, ?_⟩ <;>
          (try simp only [List.length_append, List.length_take, List.length_drop]) <;> omega
      · refine ⟨?_, ?_⟩ <;>
          (try simp only [List.length_append, List.length_take, List.length_drop]) <;> omega
  | delete =>
    simp only [InputField.handlerBody]
    split
    · exact ⟨h0, h1⟩
    · next hne =>
      have hne2 : s.text.drop s.cursorPos.toNat ≠ [] := fun heq => hne (by rw [heq]; rfl)
      have hw1 := firstUnitLen_pos _ hne2
      have hw2 := firstUnitLen_le (s.text.drop s.cursorPos.toNat)
      rw [List.length_drop] at hw2
      refine ⟨h0, ?_⟩
      (try simp only [List.length_append, List.length_take, List.length_drop])
      omega
  | enter => simp [isEditKey] at hk
  | escape => simp [isEditKey] at hk
  | down => simp [isEditKey] at hk
  | up => simp [isEditKey] at hk
  | tab => simp [isEditKey] at hk
  | backtab => simp [isEditKey] at hk

theorem cursorInv_InputHandler (s : InputFieldState) (k : Key) (hk : isEditKey k = true)
    (h : InputField.cursorInv s) :
    InputField.cursorInv (InputField.InputHandler s k).1 := by
  have hb := cursorInv_handlerBody s k hk h
  simp only [InputField.InputHandler]
  split
  · refine ⟨?_, ?_⟩
    · rw [(Autocomplete_preserves _).2.1]
      exact hb.1
    · rw [(Autocomplete_preserves _).2.1, (Autocomplete_preserves _).1]
      exact hb.2
  · exact hb

theorem cursorInv_runKeys (s : InputFieldState) (ks : List Key)
    (hks : ∀ k ∈ ks, isEditKey k = true) (h : InputField.cursorInv s) :
    InputField.cursorInv (InputField.runKeys s ks) := by
  induction ks generalizing s with
  | nil => exact h
  | cons k ks ih =>
    have h1 := cursorInv_InputHandler s k (hks k (List.mem_cons_self k ks)) h
    exact ih (InputField.InputHandler s k).1
      (fun x hx => hks x (List.mem_cons_of_mem k hx)) h1

/-- Claim C4: for every sequence of insert and delete key events (character insertion, Backspace,
Delete, Ctrl-K, Ctrl-W, Ctrl-U) handled by InputField.InputHandler, starting from a state
with 0 ≤ cursorPos ≤ len(text), the invariant 0 ≤ cursorPos ≤ len(text) holds again after
every prefix of the sequence. -/
theorem inputField_cursor_bounds (s : InputFieldState) (ks : List Key)
    (hks : ∀ k ∈ ks, isEditKey k = true) (h : InputField.cursorInv s) (n : Nat) :
    InputField.cursorInv (InputField.runKeys s (ks.take n)) :=
  cursorInv_runKeys s (ks.take n) (fun k hk => hks k (List.take_subset n ks hk)) h

theorem inputField_cursor_bounds_witness :
    InputField.cursorInv (InputField.runKeys maskState
      ([Key.rune 'x', Key.backspace, Key.ctrlW, Key.delete, Key.ctrlK, Key.ctrlU].take 6)) :=
  inputField_cursor_bounds maskState
    [Key.rune 'x', Key.backspace, Key.ctrlW, Key.delete, Key.ctrlK, Key.ctrlU]
    (by decide) ⟨by decide, by decide⟩ 6

/-- Claim C5: a rune whose resulting text the registered acceptance predicate rejects leaves the
entire field state unchanged and fires no callback; when the predicate is absent or accepts
the resulting text, the rune's UTF-8 bytes are spliced into the text at the cursor and the
cursor advances by exactly the inserted byte length. -/
theorem inputField_acceptance (s : InputFieldState) (c : Char) :
    (∀ f, s.accept = some f →
       f (s.text.take s.cursorPos.toNat ++ utf8Encode c ++ s.text.drop s.cursorPos.toNat) c
         = false →
       InputField.InputHandler s (Key.rune c) = (s, [])) ∧
    ((∀ f, s.accept = some f →
       f (s.text.take s.cursorPos.toNat ++ utf8Encode c ++ s.text.drop s.cursorPos.toNat) c
         = true) →
     (InputField.InputHandler s (Key.rune c)).1.text
         = s.text.take s.cursorPos.toNat ++ utf8Encode c ++ s.text.drop s.cursorPos.toNat ∧
     (InputField.InputHandler s (Key.rune c)).1.cursorPos
         = s.cursorPos + ((utf8Encode c).length : Int)) := by
  constructor
  · intro f hacc hrej
    have hadd : InputField.add s c = (s, false) := by
      simp only [InputField.add, hacc, hrej]
      simp
    have hbody : InputField.handlerBody s (Key.rune c) = (s, []) := by
      simp only [InputField.handlerBody, hadd]
    simp only [InputField.InputHandler, hbody]
    simp
  · intro hacc
    have hadd : (InputField.add s c).1 =
        { s with text := s.text.take s.cursorPos.toNat ++ utf8Encode c ++
                         s.text.drop s.cursorPos.toNat,
                 cursorPos := s.cursorPos + ((utf8Encode c).length : Int) } := by
      cases hsa : s.accept with
      | none => simp only [InputField.add, hsa]
      | some f =>
        have hf := hacc f hsa
        simp only [InputField.add, hsa, hf]
        simp
    have hfields := InputHandler_fst_fields s (Key.rune c)
    have hbtext : (InputField.handlerBody s (Key.rune c)).1 = (InputField.add s c).1 := rfl
    refine ⟨?_, ?_⟩
    · rw [hfields.1, hbtext, hadd]
    · rw [hfields.2, hbtext, hadd]

theorem inputField_acceptance_witness :
    InputField.InputHandler rejectField (Key.rune 'x') = (rejectField, []) ∧
    (InputField.InputHandler plainField (Key.rune 'x')).1.text = [104, 120, 105] ∧
    (InputField.InputHandler plainField (Key.rune 'x')).1.cursorPos = 2 := by
  refine ⟨(inputField_acceptance rejectField 'x').1 (fun _ _ => false) rfl rfl, ?_, ?_⟩
  · have h := (inputField_acceptance plainField 'x').2 (fun f hf => Option.noConfusion hf)
    rw [h.1]
    decide
  · have h := (inputField_acceptance plainField 'x').2 (fun f hf => Option.noConfusion hf)
    rw [h.2]
    decide

end Cview
